import Mathlib

/-!
A shallow embedding, in Lean 4, of the request-admission and review-execution
pipeline of the `revo` code-review bot, together with theorems settling the
frozen specification claims.  Each definition is translated from the Go
source (file and function named in its doc comment); external collaborators
(HMAC, JSON decoding, the forge client, the LLM, the broker) appear as
oracle parameters or as environment records of their observable results.
Go machine integers are modelled as `Int`/`Nat`, Go `float64` arithmetic as
`ℚ`, and `time.Time`/`time.Duration` as nanosecond counts (`Nat`).
-/

namespace Revo

/-! ## Token-bucket rate limiter (`internal/ratelimit/limiter.go`) -/

/-- State of `ratelimit.Limiter`: the mutable fields read or written by
`tryAcquire` and `Release`.  Times and durations are in nanoseconds. -/
structure Limiter where
  tokens : Int
  maxTokens : Int
  refillRate : Nat
  lastRefill : Nat
  totalRequests : Int
  deriving Repr, DecidableEq

/-- `ratelimit.NewLimiter`: non-positive arguments are replaced by the
defaults (2 tokens, 30 s refill); the bucket starts full and `lastRefill`
is the construction instant (modelled as time 0). -/
def NewLimiter (maxTokens : Int) (refillRate : Nat) : Limiter :=
  let m : Int := if maxTokens ≤ 0 then 2 else maxTokens
  let r : Nat := if refillRate ≤ 0 then 30000000000 else refillRate
  { tokens := m, maxTokens := m, refillRate := r, lastRefill := 0, totalRequests := 0 }

/-- The refill step at the head of `Limiter.tryAcquire`: add
`elapsed / refillRate` tokens, capping at `maxTokens` and resetting
`lastRefill`, when at least one interval has elapsed. -/
def Limiter.refill (l : Limiter) (now : Nat) : Limiter :=
  if Int.ofNat ((now - l.lastRefill) / l.refillRate) > 0 then
    { l with
      tokens :=
        if l.tokens + Int.ofNat ((now - l.lastRefill) / l.refillRate) > l.maxTokens then
          l.maxTokens
        else l.tokens + Int.ofNat ((now - l.lastRefill) / l.refillRate),
      lastRefill := now }
  else l

/-- `Limiter.tryAcquire` at instant `now`: refill, then consume a token if
one is available.  Returns whether a token was obtained. -/
def Limiter.tryAcquire (l : Limiter) (now : Nat) : Bool × Limiter :=
  if (l.refill now).tokens > 0 then
    (true,
      { l.refill now with
        tokens := (l.refill now).tokens - 1,
        totalRequests := (l.refill now).totalRequests + 1 })
  else
    (false, l.refill now)

/-- `Limiter.Release`: return a token, never growing the bucket past
`maxTokens`. -/
def Limiter.release (l : Limiter) : Limiter :=
  if l.tokens < l.maxTokens then { l with tokens := l.tokens + 1 } else l

/-- One timed limiter operation: an acquisition attempt (`Wait`'s poll) or a
release by a token holder. -/
inductive LimOp
  | acquire (now : Nat)
  | release
  deriving Repr, DecidableEq

/-- Run a sequence of limiter operations, tracking the number of
outstanding tokens (successful acquisitions minus releases). -/
def runLimiter : Limiter → Int → List LimOp → Limiter × Int
  | l, out, [] => (l, out)
  | l, out, LimOp.acquire now :: ops =>
      runLimiter (l.tryAcquire now).2 (if (l.tryAcquire now).1 then out + 1 else out) ops
  | l, out, LimOp.release :: ops =>
      runLimiter l.release (out - 1) ops

/-- Outstanding-token count after running `ops` from a fresh limiter. -/
def limiterOutstanding (maxTokens : Int) (refillRate : Nat) (ops : List LimOp) : Int :=
  (runLimiter (NewLimiter maxTokens refillRate) 0 ops).2

theorem runLimiter_append (l : Limiter) (out : Int) (xs ys : List LimOp) :
    runLimiter l out (xs ++ ys) =
      runLimiter (runLimiter l out xs).1 (runLimiter l out xs).2 ys := by
  induction xs generalizing l out with
  | nil => rfl
  | cons x xs ih =>
      cases x with
      | acquire now => simp only [List.cons_append, runLimiter]; exact ih _ _
      | release => simp only [List.cons_append, runLimiter]; exact ih _ _

/-- When less than one refill interval has elapsed, `tryAcquire` adds no
tokens: it just consumes one if available. -/
theorem tryAcquire_norefill (l : Limiter) (now : Nat)
    (h : now - l.lastRefill < l.refillRate) :
    l.tryAcquire now =
      if l.tokens > 0 then
        (true, { l with tokens := l.tokens - 1, totalRequests := l.totalRequests + 1 })
      else (false, l) := by
  have hr : l.refill now = l := by
    unfold Limiter.refill
    rw [Nat.div_eq_of_lt h]
    simp
  unfold Limiter.tryAcquire
  rw [hr]

/-- Key invariant under refill-free operation: the sum of available and
outstanding tokens never exceeds `maxTokens`, tokens stay non-negative,
and `lastRefill` stays at its initial value. -/
theorem runLimiter_norefill_invariant (ops : List LimOp) :
    ∀ (l : Limiter) (out : Int),
      (∀ t, LimOp.acquire t ∈ ops → t - l.lastRefill < l.refillRate) →
      0 ≤ l.tokens → l.tokens + out ≤ l.maxTokens →
      0 ≤ (runLimiter l out ops).1.tokens ∧
      (runLimiter l out ops).1.tokens + (runLimiter l out ops).2 ≤ l.maxTokens ∧
      (runLimiter l out ops).1.lastRefill = l.lastRefill ∧
      (runLimiter l out ops).1.maxTokens = l.maxTokens ∧
      (runLimiter l out ops).1.refillRate = l.refillRate := by
  induction ops with
  | nil => intro l out _ h0 hsum; exact ⟨h0, hsum, rfl, rfl, rfl⟩
  | cons op ops ih =>
      intro l out hno h0 hsum
      cases op with
      | acquire now =>
          have hlt : now - l.lastRefill < l.refillRate := by
            exact hno now (List.mem_cons_self _ _)
          rw [runLimiter, tryAcquire_norefill l now hlt]
          by_cases hpos : l.tokens > 0
          · rw [if_pos hpos]
            simp only [if_pos hpos]
            have := ih { l with tokens := l.tokens - 1, totalRequests := l.totalRequests + 1 }
              (out + 1)
              (by intro t ht; exact hno t (List.mem_cons_of_mem _ ht))
              (by show (0:Int) ≤ l.tokens - 1; linarith)
              (by show l.tokens - 1 + (out + 1) ≤ l.maxTokens; linarith)
            simpa using this
          · rw [if_neg hpos]
            simp only [if_neg hpos]
            have := ih l out (by intro t ht; exact hno t (List.mem_cons_of_mem _ ht)) h0 hsum
            simpa using this
      | release =>
          rw [runLimiter]
          unfold Limiter.release
          by_cases hlt : l.tokens < l.maxTokens
          · rw [if_pos hlt]
            have := ih { l with tokens := l.tokens + 1 } (out - 1)
              (by intro t ht; exact hno t (List.mem_cons_of_mem _ ht))
              (by show (0:Int) ≤ l.tokens + 1; linarith)
              (by show l.tokens + 1 + (out - 1) ≤ l.maxTokens; linarith)
            simpa using this
          · rw [if_neg hlt]
            have := ih l (out - 1) (by intro t ht; exact hno t (List.mem_cons_of_mem _ ht))
              h0 (by linarith)
            simpa using this

/-- C4 (counterexample): the claim "outstanding tokens never exceed
`max_tokens`, regardless of elapsed time and refills" is false.  With
`max_tokens = 1` and a 1 ns refill interval, two acquisitions 1 ns apart
both succeed with no intervening release: the elapsed-time refill hands
out a second token while the first is still held, so two callers hold
tokens at once. -/
theorem limiter_outstanding_exceeds_max :
    limiterOutstanding 1 1 [LimOp.acquire 0, LimOp.acquire 1] = 2 ∧
    (NewLimiter 1 1).maxTokens = 1 := by
  constructor <;> rfl

/-- C4 (amended): in the absence of elapsed-time refills — every
acquisition attempt happens before one full `refill_rate` interval has
elapsed since construction — the number of outstanding tokens never
exceeds `max_tokens`. -/
theorem limiter_outstanding_le_max_norefill (maxTokens : Int) (refillRate : Nat)
    (ops : List LimOp)
    (hno : ∀ t, LimOp.acquire t ∈ ops → t < (NewLimiter maxTokens refillRate).refillRate) :
    limiterOutstanding maxTokens refillRate ops ≤ (NewLimiter maxTokens refillRate).maxTokens := by
  have h := runLimiter_norefill_invariant ops (NewLimiter maxTokens refillRate) 0
    (by intro t ht
        have := hno t ht
        simpa [NewLimiter] using this)
    (by by_cases h : maxTokens ≤ 0
        · simp [NewLimiter, h]
        · simp only [NewLimiter, h, if_false]
          linarith)
    (by by_cases h : maxTokens ≤ 0
        · simp [NewLimiter, h]
        · simp only [NewLimiter, h, if_false, add_zero]
          linarith)
  have h0 := h.1
  have hsum := h.2.1
  unfold limiterOutstanding
  linarith

/-- C4 amended, exercised at a concrete input: a two-acquire trace inside
the refill-free window for a limiter of capacity 1. -/
theorem limiter_outstanding_le_max_norefill_witness :
    limiterOutstanding 1 1000 [LimOp.acquire 0, LimOp.acquire 1] ≤
      (NewLimiter 1 1000).maxTokens :=
  limiter_outstanding_le_max_norefill 1 1000 [LimOp.acquire 0, LimOp.acquire 1]
    (by intro t ht; fin_cases ht <;> simp [NewLimiter])

/-- C9 (counterexample): the claim "with `max_tokens = 0` every acquire
blocks indefinitely" is false.  `NewLimiter(0, _)` substitutes the default
capacity of 2, so the very first acquisition attempt succeeds
immediately. -/
theorem limiter_zero_acquires_immediately :
    ((NewLimiter 0 30000000000).tryAcquire 0).1 = true ∧
    (NewLimiter 0 30000000000).maxTokens = 2 ∧
    (NewLimiter 0 30000000000).tokens = 2 := by
  refine ⟨rfl, rfl, rfl⟩

/-- C9 (amended): for any requested `max_tokens ≤ 0`, `NewLimiter`
substitutes the default capacity 2 with a full bucket, and the first
acquisition attempt obtains a token at once instead of blocking. -/
theorem limiter_nonpositive_defaults_to_two (m : Int) (r : Nat) (h : m ≤ 0) :
    (NewLimiter m r).maxTokens = 2 ∧ (NewLimiter m r).tokens = 2 ∧
    ((NewLimiter m r).tryAcquire 0).1 = true := by
  refine ⟨by simp [NewLimiter, h], by simp [NewLimiter, h], ?_⟩
  simp [NewLimiter, h, Limiter.tryAcquire, Limiter.refill]

/-- C9 amended claim applied at the concrete input `max_tokens = 0`. -/
theorem limiter_nonpositive_defaults_to_two_witness :
    (NewLimiter 0 5).maxTokens = 2 ∧ (NewLimiter 0 5).tokens = 2 ∧
    ((NewLimiter 0 5).tryAcquire 0).1 = true :=
  limiter_nonpositive_defaults_to_two 0 5 (by decide)

/-! ## String helpers shared by several components

Go's `strings.HasPrefix` / `strings.Contains` / `strings.ToLower`,
modelled on `List Char` (byte-level details coincide for the ASCII
inputs the pipeline manipulates). -/

/-- `strings.HasPrefix` on character lists. -/
def startsWithL : List Char → List Char → Bool
  | _, [] => true
  | [], _ :: _ => false
  | a :: s, b :: p => a == b && startsWithL s p

/-- `strings.Contains` on character lists. -/
def containsL : List Char → List Char → Bool
  | [], p => p.isEmpty
  | s@(_ :: t), p => startsWithL s p || containsL t p

/-- `strings.Contains` on strings. -/
def goContains (s pat : String) : Bool := containsL s.toList pat.toList

/-- `strings.ToLower` (character-wise). -/
def goToLower (s : String) : String := String.mk (s.toList.map Char.toLower)

/-! ## Retry engine (`internal/retry/retry.go`) -/

/-- `retry.Config`.  Delays are nanoseconds; Go `float64` arithmetic in
`calculateDelay` is modelled over `ℚ`. -/
structure RetryConfig where
  maxRetries : Nat
  initialDelay : ℚ
  maxDelay : ℚ
  multiplier : ℚ
  jitterFraction : ℚ
  deriving Repr, DecidableEq

/-- A Go `error` as the retry engine observes it: its message string plus
the typed sentinels tested with `errors.Is`. -/
structure GoErr where
  msg : String
  isRateLimitedErr : Bool := false
  isServerErrErr : Bool := false
  isDeadlineExceededErr : Bool := false
  deriving Repr, DecidableEq

/-- `Retrier.isRetryable`: substring classification of the lowercased
error message, plus the `errors.Is` sentinel checks. -/
def isRetryable (e : GoErr) : Bool :=
  let s := goToLower e.msg
  (goContains s "429" || goContains s "rate limit" || goContains s "too many requests" ||
      e.isRateLimitedErr) ||
    (goContains s "500" || goContains s "502" || goContains s "503" || goContains s "504" ||
      goContains s "server error" || e.isServerErrErr) ||
    (goContains s "timeout" || goContains s "deadline exceeded" || e.isDeadlineExceededErr) ||
    (goContains s "connection refused" || goContains s "connection reset" ||
      goContains s "no such host" || goContains s "network is unreachable") ||
    (goContains s "overloaded" || goContains s "capacity")

/-- 100 ms in nanoseconds: the delay floor in `calculateDelay`. -/
def msFloor : ℚ := 100000000

/-- The exponential delay after capping:
`min(initialDelay * multiplier^attempt, maxDelay)`, written as the source
writes it (cap only when the product exceeds `maxDelay`). -/
def cappedDelay (cfg : RetryConfig) (attempt : Nat) : ℚ :=
  if cfg.initialDelay * cfg.multiplier ^ attempt > cfg.maxDelay then cfg.maxDelay
  else cfg.initialDelay * cfg.multiplier ^ attempt

/-- The additive jitter `rng*2*jitterRange - jitterRange` with
`jitterRange = delay * jitterFraction`, where `r` is the uniform draw
`rng.Float64() ∈ [0,1)`. -/
def jitterTerm (cfg : RetryConfig) (attempt : Nat) (r : ℚ) : ℚ :=
  r * 2 * (cappedDelay cfg attempt * cfg.jitterFraction) -
    cappedDelay cfg attempt * cfg.jitterFraction

/-- `Retrier.calculateDelay`.  `retryAfterHint` is the duration
`extractRetryAfter` recovers from the error message (`0` when no hint is
present); `r` is the uniform draw in `[0,1)`. -/
def calculateDelay (cfg : RetryConfig) (retryAfterHint : ℚ) (attempt : Nat) (r : ℚ) : ℚ :=
  if retryAfterHint > 0 then retryAfterHint + r * retryAfterHint * (1 / 10)
  else if cappedDelay cfg attempt + jitterTerm cfg attempt r < msFloor then msFloor
  else cappedDelay cfg attempt + jitterTerm cfg attempt r

/-- The backoff base in the claim's phrasing:
`min(initial × multiplierⁿ, max_delay)`. -/
def expBackoffBase (cfg : RetryConfig) (attempt : Nat) : ℚ :=
  min (cfg.initialDelay * cfg.multiplier ^ attempt) cfg.maxDelay

theorem cappedDelay_eq_expBackoffBase (cfg : RetryConfig) (attempt : Nat) :
    cappedDelay cfg attempt = expBackoffBase cfg attempt := by
  unfold cappedDelay expBackoffBase
  rcases le_or_lt (cfg.initialDelay * cfg.multiplier ^ attempt) cfg.maxDelay with h | h
  · rw [if_neg (not_lt.mpr h), min_eq_left h]
  · rw [if_pos h, min_eq_right (le_of_lt h)]

/-- C6 (confirmed): for an attempt whose error carries no retry-after
hint, the computed wait is `min(initial × multiplierⁿ, max_delay)`
perturbed by a jitter of magnitude at most `jitter_fraction` times that
base, and the result never falls below the 100 ms floor. -/
theorem calculateDelay_spec (cfg : RetryConfig) (n : Nat) (r : ℚ)
    (hr0 : 0 ≤ r) (hr1 : r < 1) (hjf0 : 0 ≤ cfg.jitterFraction)
    (hinit : 0 ≤ cfg.initialDelay) (hmax : 0 ≤ cfg.maxDelay) (hmul : 0 ≤ cfg.multiplier) :
    ∃ j : ℚ, |j| ≤ cfg.jitterFraction * expBackoffBase cfg n ∧
      calculateDelay cfg 0 n r = max (expBackoffBase cfg n + j) msFloor ∧
      msFloor ≤ calculateDelay cfg 0 n r := by
  have hbase0 : 0 ≤ expBackoffBase cfg n :=
    le_min (mul_nonneg hinit (pow_nonneg hmul n)) hmax
  have hj : jitterTerm cfg n r = (2 * r - 1) * (expBackoffBase cfg n * cfg.jitterFraction) := by
    unfold jitterTerm
    rw [cappedDelay_eq_expBackoffBase]
    ring
  refine ⟨jitterTerm cfg n r, ?_, ?_, ?_⟩
  · rw [hj, abs_mul]
    have h2r : |2 * r - 1| ≤ 1 := by
      rw [abs_le]; constructor <;> linarith
    have hnn : 0 ≤ expBackoffBase cfg n * cfg.jitterFraction :=
      mul_nonneg hbase0 hjf0
    calc |2 * r - 1| * |expBackoffBase cfg n * cfg.jitterFraction|
        = |2 * r - 1| * (expBackoffBase cfg n * cfg.jitterFraction) := by
          rw [abs_of_nonneg hnn]
      _ ≤ 1 * (expBackoffBase cfg n * cfg.jitterFraction) := by
          exact mul_le_mul_of_nonneg_right h2r hnn
      _ = cfg.jitterFraction * expBackoffBase cfg n := by ring
  · unfold calculateDelay
    rw [if_neg (by norm_num), cappedDelay_eq_expBackoffBase]
    rcases lt_or_le (expBackoffBase cfg n + jitterTerm cfg n r) msFloor with h | h
    · rw [if_pos h, max_eq_right (le_of_lt h)]
    · rw [if_neg (not_lt.mpr h), max_eq_left h]
  · unfold calculateDelay
    rw [if_neg (by norm_num)]
    rcases lt_or_le (cappedDelay cfg n + jitterTerm cfg n r) msFloor with h | h
    · rw [if_pos h]
    · rw [if_neg (not_lt.mpr h)]; exact h

/-- Production-default configuration (`retry.DefaultConfig`), used to
exercise `calculateDelay_spec` at a concrete input. -/
def defaultRetryConfig : RetryConfig :=
  { maxRetries := 5, initialDelay := 1000000000, maxDelay := 60000000000,
    multiplier := 2, jitterFraction := 3 / 10 }

/-- C6 exercised concretely: attempt 1 of the default configuration with
uniform draw `r = 1/2`. -/
theorem calculateDelay_spec_witness :
    ∃ j : ℚ, |j| ≤ defaultRetryConfig.jitterFraction * expBackoffBase defaultRetryConfig 1 ∧
      calculateDelay defaultRetryConfig 0 1 (1 / 2) =
        max (expBackoffBase defaultRetryConfig 1 + j) msFloor ∧
      msFloor ≤ calculateDelay defaultRetryConfig 0 1 (1 / 2) :=
  calculateDelay_spec defaultRetryConfig 1 (1 / 2) (by norm_num) (by norm_num)
    (by norm_num [defaultRetryConfig]) (by norm_num [defaultRetryConfig])
    (by norm_num [defaultRetryConfig]) (by norm_num [defaultRetryConfig])

/-- Result of `Retrier.Do`: success, a non-retryable error surfaced
immediately, the context cancelled during a backoff wait, or
`errors.Join(ErrMaxRetries, lastErr)` after exhaustion. -/
inductive DoResult
  | success
  | nonRetryable (e : GoErr)
  | ctxDone
  | maxRetriesExceeded (last : GoErr)
  deriving Repr, DecidableEq

/-- The loop of `Retrier.Do` from attempt number `attempt` on.
`attempts i` is what the `i`-th invocation of `fn` returns (`none` for
`nil`); `cancel i` says whether the context is cancelled during the wait
after attempt `i`.  Returns the result together with the total number of
invocations of `fn`. -/
def doFrom (attempts : Nat → Option GoErr) (cancel : Nat → Bool) (maxRetries : Nat)
    (attempt : Nat) : DoResult × Nat :=
  match attempts attempt with
  | none => (DoResult.success, attempt + 1)
  | some e =>
    if isRetryable e = false then (DoResult.nonRetryable e, attempt + 1)
    else if maxRetries ≤ attempt then (DoResult.maxRetriesExceeded e, attempt + 1)
    else if cancel attempt then (DoResult.ctxDone, attempt + 1)
    else doFrom attempts cancel maxRetries (attempt + 1)
termination_by maxRetries - attempt
decreasing_by omega

/-- `Retrier.Do`: run the loop from attempt 0. -/
def retrierDo (attempts : Nat → Option GoErr) (cancel : Nat → Bool) (maxRetries : Nat) :
    DoResult × Nat :=
  doFrom attempts cancel maxRetries 0

theorem doFrom_spec (attempts : Nat → Option GoErr) (cancel : Nat → Bool) (maxRetries : Nat) :
    ∀ k attempt, maxRetries - attempt ≤ k → attempt ≤ maxRetries →
      attempt + 1 ≤ (doFrom attempts cancel maxRetries attempt).2 ∧
      (doFrom attempts cancel maxRetries attempt).2 ≤ maxRetries + 1 ∧
      ((doFrom attempts cancel maxRetries attempt).1 = DoResult.success ↔
        attempts ((doFrom attempts cancel maxRetries attempt).2 - 1) = none) ∧
      (∀ i, attempt ≤ i → i + 1 < (doFrom attempts cancel maxRetries attempt).2 →
        attempts i ≠ none) := by
  intro k
  induction k with
  | zero =>
      intro attempt hk hle
      have heq : attempt = maxRetries := by omega
      rw [doFrom]
      cases hA : attempts attempt with
      | none =>
          dsimp only
          refine ⟨le_refl _, by omega, by simp [hA], ?_⟩
          intro i hi hlt
          omega
      | some e =>
          dsimp only
          by_cases hre : isRetryable e = false
          · rw [if_pos hre]
            refine ⟨le_refl _, by omega, by simp [hA], ?_⟩
            intro i hi hlt
            omega
          · rw [if_neg hre, if_pos (by omega : maxRetries ≤ attempt)]
            refine ⟨le_refl _, by omega, by simp [hA], ?_⟩
            intro i hi hlt
            omega
  | succ k ih =>
      intro attempt hk hle
      rw [doFrom]
      cases hA : attempts attempt with
      | none =>
          dsimp only
          refine ⟨le_refl _, by omega, by simp [hA], ?_⟩
          intro i hi hlt
          omega
      | some e =>
          dsimp only
          by_cases hre : isRetryable e = false
          · rw [if_pos hre]
            refine ⟨le_refl _, by omega, by simp [hA], ?_⟩
            intro i hi hlt
            omega
          · rw [if_neg hre]
            by_cases hm : maxRetries ≤ attempt
            · rw [if_pos hm]
              refine ⟨le_refl _, by omega, by simp [hA], ?_⟩
              intro i hi hlt
              omega
            · rw [if_neg hm]
              by_cases hc : cancel attempt
              · rw [if_pos hc]
                refine ⟨le_refl _, by omega, by simp [hA], ?_⟩
                intro i hi hlt
                omega
              · rw [if_neg hc]
                have hrec := ih (attempt + 1) (by omega) (by omega)
                refine ⟨by omega, hrec.2.1, hrec.2.2.1, ?_⟩
                intro i hi hlt
                rcases Nat.lt_or_ge i (attempt + 1) with hi1 | hi1
                · have : i = attempt := by omega
                  subst this
                  simp [hA]
                · exact hrec.2.2.2 i hi1 hlt

/-- C10 (confirmed): `Retrier.Do` invokes `fn` at least once and at most
`max_retries + 1` times; it returns `nil` exactly when some invocation of
`fn` returned `nil`; and every invocation before the last returned an
error — the first `nil` ends the loop immediately. -/
theorem retrierDo_spec (attempts : Nat → Option GoErr) (cancel : Nat → Bool)
    (maxRetries : Nat) :
    1 ≤ (retrierDo attempts cancel maxRetries).2 ∧
    (retrierDo attempts cancel maxRetries).2 ≤ maxRetries + 1 ∧
    ((retrierDo attempts cancel maxRetries).1 = DoResult.success ↔
      ∃ i < (retrierDo attempts cancel maxRetries).2, attempts i = none) ∧
    (∀ i, i + 1 < (retrierDo attempts cancel maxRetries).2 → attempts i ≠ none) := by
  have h := doFrom_spec attempts cancel maxRetries maxRetries 0 (by omega) (by omega)
  rw [show doFrom attempts cancel maxRetries 0 = retrierDo attempts cancel maxRetries from
    rfl] at h
  refine ⟨h.1, h.2.1, ?_, fun i hi => h.2.2.2 i (by omega) hi⟩
  constructor
  · intro hs
    exact ⟨(retrierDo attempts cancel maxRetries).2 - 1, by omega, (h.2.2.1).mp hs⟩
  · rintro ⟨i, hi, hnone⟩
    rcases Nat.lt_or_ge (i + 1) (retrierDo attempts cancel maxRetries).2 with hlt | hge
    · exact absurd hnone (h.2.2.2 i (by omega) hlt)
    · have : i = (retrierDo attempts cancel maxRetries).2 - 1 := by omega
      subst this
      exact (h.2.2.1).mpr hnone

/-! ## Response cache (`internal/cache` — `PromptCache`) -/

/-- A `cache.cacheEntry`. -/
structure CacheEntry where
  response : String
  createdAt : Nat
  accessedAt : Nat
  accessCount : Nat
  deriving Repr, DecidableEq

/-- The cache's `entries` map, as an association list with (invariantly)
distinct keys.  Keys are the SHA-256 hex fingerprints produced by
`hashKey`; the hash itself is a collaborator, so operations take the key
directly. -/
abbrev CacheEntries := List (String × CacheEntry)

/-- The selection loop of `PromptCache.evictOldest`: scan the entries,
keeping the entry whose `accessedAt` is strictly oldest so far (Go ranges
over the map in unspecified order; the model scans in list order, which
realizes one admissible order). -/
def oldestEntry : CacheEntries → Option (String × CacheEntry)
  | [] => none
  | p :: rest =>
    match oldestEntry rest with
    | none => some p
    | some q => if q.2.accessedAt < p.2.accessedAt then some q else some p

/-- `delete(c.entries, key)` on the association-list model. -/
def eraseKey (l : CacheEntries) (k : String) : CacheEntries :=
  l.eraseP (fun p => p.1 == k)

/-- `PromptCache.evictOldest`: remove the entry with the oldest access
time (no-op on an empty map, where `oldestKey` stays `""`). -/
def evictOldest (l : CacheEntries) : CacheEntries :=
  match oldestEntry l with
  | none => l
  | some q => eraseKey l q.1

/-- `PromptCache.Set`: evict the oldest entry when at capacity
(`len(entries) >= maxSize`), then store the new entry with fresh
`createdAt`/`accessedAt` and `accessCount = 1`.  Map assignment is
modelled as erase-then-prepend. -/
def cacheSet (maxSize : Nat) (l : CacheEntries) (key response : String) (now : Nat) :
    CacheEntries :=
  let l1 := if maxSize ≤ l.length then evictOldest l else l
  (key, { response := response, createdAt := now, accessedAt := now, accessCount := 1 }) ::
    eraseKey l1 key

theorem oldestEntry_eq_none : ∀ (l : CacheEntries), oldestEntry l = none → l = [] := by
  intro l
  cases l with
  | nil => intro _; rfl
  | cons p rest =>
      intro h
      rw [oldestEntry] at h
      cases hr : oldestEntry rest with
      | none => rw [hr] at h; dsimp only at h; cases h
      | some q0 =>
          rw [hr] at h
          dsimp only at h
          by_cases hlt : q0.2.accessedAt < p.2.accessedAt
          · rw [if_pos hlt] at h; cases h
          · rw [if_neg hlt] at h; cases h

theorem oldestEntry_mem : ∀ (l : CacheEntries) (q : String × CacheEntry),
    oldestEntry l = some q → q ∈ l := by
  intro l
  induction l with
  | nil => intro q h; simp [oldestEntry] at h
  | cons p rest ih =>
      intro q h
      rw [oldestEntry] at h
      cases hr : oldestEntry rest with
      | none =>
          rw [hr] at h
          dsimp only at h
          rw [Option.some_inj] at h
          subst h
          exact List.mem_cons_self _ _
      | some q0 =>
          rw [hr] at h
          dsimp only at h
          by_cases hlt : q0.2.accessedAt < p.2.accessedAt
          · rw [if_pos hlt, Option.some_inj] at h
            subst h
            exact List.mem_cons_of_mem _ (ih q0 hr)
          · rw [if_neg hlt, Option.some_inj] at h
            subst h
            exact List.mem_cons_self _ _

theorem oldestEntry_min : ∀ (l : CacheEntries) (q : String × CacheEntry),
    oldestEntry l = some q → ∀ p ∈ l, q.2.accessedAt ≤ p.2.accessedAt := by
  intro l
  induction l with
  | nil => intro q h; simp [oldestEntry] at h
  | cons p rest ih =>
      intro q h x hx
      rw [oldestEntry] at h
      cases hr : oldestEntry rest with
      | none =>
          rw [hr] at h
          dsimp only at h
          rw [Option.some_inj] at h
          have hrest : rest = [] := oldestEntry_eq_none rest hr
          subst hrest
          have hxp : x = p := by simpa using hx
          rw [hxp, ← h]
      | some q0 =>
          rw [hr] at h
          dsimp only at h
          rcases List.mem_cons.mp hx with hx | hx
          · by_cases hlt : q0.2.accessedAt < p.2.accessedAt
            · rw [if_pos hlt, Option.some_inj] at h
              rw [hx, ← h]
              exact le_of_lt hlt
            · rw [if_neg hlt, Option.some_inj] at h
              rw [hx, ← h]
          · have hmin := ih q0 hr x hx
            by_cases hlt : q0.2.accessedAt < p.2.accessedAt
            · rw [if_pos hlt, Option.some_inj] at h
              subst h
              exact hmin
            · rw [if_neg hlt, Option.some_inj] at h
              subst h
              exact le_trans (not_lt.mp hlt) hmin

theorem oldestEntry_isSome (l : CacheEntries) (h : l ≠ []) :
    ∃ q, oldestEntry l = some q := by
  cases hr : oldestEntry l with
  | none => exact absurd (oldestEntry_eq_none l hr) h
  | some q => exact ⟨q, rfl⟩

/-- Deleting a present key shortens the entry list by exactly one. -/
theorem eraseKey_length : ∀ (l : CacheEntries), ∀ q ∈ l,
    (eraseKey l q.1).length + 1 = l.length := by
  intro l
  induction l with
  | nil => intro q hq; cases hq
  | cons p rest ih =>
      intro q hq
      unfold eraseKey
      rw [List.eraseP_cons]
      by_cases hk : p.1 = q.1
      · rw [show (p.1 == q.1) = true from beq_iff_eq.mpr hk]
        simp only [cond_true, List.length_cons]
      · rw [show (p.1 == q.1) = false from beq_eq_false_iff_ne.mpr hk]
        simp only [cond_false, List.length_cons]
        have hq' : q ∈ rest := by
          rcases List.mem_cons.mp hq with h | h
          · exact absurd (congrArg Prod.fst h.symm) hk
          · exact h
        have := ih q hq'
        unfold eraseKey at this
        omega

/-- With distinct keys, deleting an entry's key removes exactly that
entry: the original list is a permutation of the entry consed onto the
deletion result. -/
theorem eraseKey_perm : ∀ (l : CacheEntries), (l.map Prod.fst).Nodup →
    ∀ q ∈ l, l.Perm (q :: eraseKey l q.1) := by
  intro l
  induction l with
  | nil => intro _ q hq; cases hq
  | cons p rest ih =>
      intro hnd q hq
      have hnd' : (rest.map Prod.fst).Nodup := (List.nodup_cons.mp hnd).2
      unfold eraseKey
      rw [List.eraseP_cons]
      by_cases hk : p.1 = q.1
      · have hpq : p = q := by
          rcases List.mem_cons.mp hq with h | h
          · exact h.symm
          · exfalso
            have : p.1 ∈ rest.map Prod.fst := by
              rw [hk]
              exact List.mem_map_of_mem Prod.fst h
            exact (List.nodup_cons.mp hnd).1 this
        rw [show (p.1 == q.1) = true from beq_iff_eq.mpr hk]
        simp only [cond_true]
        rw [hpq]
      · have hq' : q ∈ rest := by
          rcases List.mem_cons.mp hq with h | h
          · exact absurd (congrArg Prod.fst h.symm) hk
          · exact h
        rw [show (p.1 == q.1) = false from beq_eq_false_iff_ne.mpr hk]
        simp only [cond_false]
        have hperm := ih hnd' q hq'
        unfold eraseKey at hperm
        exact List.Perm.trans (hperm.cons p) (List.Perm.swap q p _)

/-- C8 (confirmed): whenever `Set` runs on a cache whose entry count has
reached `max_size`, exactly one existing entry is evicted before the new
entry is inserted, and the evicted entry is one with the oldest last-access
time (the unique such entry when access times are distinct). -/
theorem promptCache_set_evicts_lru (maxSize : Nat) (l : CacheEntries)
    (key resp : String) (now : Nat)
    (hcap : maxSize ≤ l.length) (hpos : 1 ≤ maxSize)
    (hnd : (l.map Prod.fst).Nodup) :
    ∃ q ∈ l,
      (∀ p ∈ l, q.2.accessedAt ≤ p.2.accessedAt) ∧
      (eraseKey l q.1).length + 1 = l.length ∧
      l.Perm (q :: eraseKey l q.1) ∧
      cacheSet maxSize l key resp now =
        (key, { response := resp, createdAt := now, accessedAt := now, accessCount := 1 }) ::
          eraseKey (eraseKey l q.1) key := by
  have hne : l ≠ [] := by
    intro h
    rw [h] at hcap
    simp at hcap
    omega
  obtain ⟨q, hq⟩ := oldestEntry_isSome l hne
  have hmem := oldestEntry_mem l q hq
  refine ⟨q, hmem, oldestEntry_min l q hq, eraseKey_length l q hmem,
    eraseKey_perm l hnd q hmem, ?_⟩
  unfold cacheSet
  rw [if_pos hcap]
  unfold evictOldest
  rw [hq]

/-- A concrete two-entry cache at capacity, for the C8 witness. -/
def cacheSample : CacheEntries :=
  [("a", { response := "ra", createdAt := 0, accessedAt := 5, accessCount := 1 }),
   ("b", { response := "rb", createdAt := 0, accessedAt := 3, accessCount := 1 })]

/-- C8 exercised concretely: a two-entry cache at capacity 2; the entry
with the older access time (key `"b"`, accessed at 3) is the one
evicted. -/
theorem promptCache_set_evicts_lru_witness :
    ∃ q ∈ cacheSample,
      (∀ p ∈ cacheSample, q.2.accessedAt ≤ p.2.accessedAt) ∧
      (eraseKey cacheSample q.1).length + 1 = cacheSample.length ∧
      cacheSample.Perm (q :: eraseKey cacheSample q.1) ∧
      cacheSet 2 cacheSample "c" "rc" 9 =
        ("c", { response := "rc", createdAt := 9, accessedAt := 9, accessCount := 1 }) ::
          eraseKey (eraseKey cacheSample q.1) "c" :=
  promptCache_set_evicts_lru 2 cacheSample "c" "rc" 9 (by decide) (by decide) (by decide)

/-! ## In-flight deduplicator (`internal/dedup` — `Deduplicator`) -/

/-- `dedup.RequestStatus`. -/
inductive DedupStatus
  | pending
  | completed
  | failed
  deriving Repr, DecidableEq

/-- A `dedup.requestEntry`: creation time, status, and the identity of its
`done` channel (the wait handle), modelled as a number. -/
structure DedupEntry where
  createdAt : Nat
  status : DedupStatus
  handle : Nat
  deriving Repr, DecidableEq

/-- State of a `Deduplicator`: the `requests` map, the TTL, and a counter
supplying fresh wait-handle identities (`make(chan struct{})`). -/
structure DedupState where
  requests : String → Option DedupEntry
  ttl : Nat
  nextHandle : Nat

/-- Insert a fresh pending entry for `key` (the tail of `CheckAndMark`). -/
def dedupInsert (s : DedupState) (now : Nat) (key : String) : DedupState :=
  { s with
    requests := fun k =>
      if k = key then
        some { createdAt := now, status := DedupStatus.pending, handle := s.nextHandle }
      else s.requests k,
    nextHandle := s.nextHandle + 1 }

/-- `Deduplicator.CheckAndMark` at instant `now`: an unexpired existing
entry is reported as a duplicate together with its wait handle; an expired
entry is deleted and, like a missing one, replaced by a fresh pending
entry (non-duplicate). -/
def checkAndMark (s : DedupState) (now : Nat) (key : String) :
    (Bool × Option Nat) × DedupState :=
  match s.requests key with
  | some e =>
      if now - e.createdAt > s.ttl then ((false, none), dedupInsert s now key)
      else ((true, some e.handle), s)
  | none => ((false, none), dedupInsert s now key)

/-- `Deduplicator.Complete`: mark an existing entry completed (and close
its `done` channel); a missing key is a no-op. -/
def dedupComplete (s : DedupState) (key : String) : DedupState :=
  match s.requests key with
  | none => s
  | some e =>
      { s with requests := fun k =>
          if k = key then some { e with status := DedupStatus.completed } else s.requests k }

/-- `Deduplicator.Fail`: mark an existing entry failed; a missing key is a
no-op. -/
def dedupFail (s : DedupState) (key : String) : DedupState :=
  match s.requests key with
  | none => s
  | some e =>
      { s with requests := fun k =>
          if k = key then some { e with status := DedupStatus.failed } else s.requests k }

/-- `Deduplicator.Remove`: delete the entry for `key`. -/
def dedupRemove (s : DedupState) (key : String) : DedupState :=
  { s with requests := fun k => if k = key then none else s.requests k }

/-- `Deduplicator.cleanup` (the background sweep): delete every expired
entry. -/
def dedupCleanup (s : DedupState) (now : Nat) : DedupState :=
  { s with requests := fun k =>
      match s.requests k with
      | some e => if now - e.createdAt > s.ttl then none else some e
      | none => none }

/-- An operation on the (mutex-serialized) deduplicator. -/
inductive DedupOp
  | cam (key : String) (now : Nat)
  | complete (key : String)
  | fail (key : String)
  | remove (key : String)
  | cleanup (now : Nat)
  deriving Repr, DecidableEq

/-- Apply one operation (dropping `CheckAndMark`'s return value). -/
def dedupStep (s : DedupState) : DedupOp → DedupState
  | DedupOp.cam key now => (checkAndMark s now key).2
  | DedupOp.complete key => dedupComplete s key
  | DedupOp.fail key => dedupFail s key
  | DedupOp.remove key => dedupRemove s key
  | DedupOp.cleanup now => dedupCleanup s now

/-- Run a sequence of operations. -/
def dedupRun (s : DedupState) (ops : List DedupOp) : DedupState :=
  ops.foldl dedupStep s

/-- The operation's timestamp does not exceed the end of the TTL window
that opened at `t0` (times are serialized by the mutex, so an operation
observed before the final `CheckAndMark` carries an earlier clock
reading). -/
def opBounded (t0 ttl : Nat) : DedupOp → Prop
  | DedupOp.cam _ now => now ≤ t0 + ttl
  | DedupOp.cleanup now => now ≤ t0 + ttl
  | _ => True

instance (t0 ttl : Nat) (op : DedupOp) : Decidable (opBounded t0 ttl op) := by
  cases op <;> simp only [opBounded] <;> infer_instance

theorem dedupRun_cons (s : DedupState) (op : DedupOp) (ops : List DedupOp) :
    dedupRun s (op :: ops) = dedupRun (dedupStep s op) ops := rfl

theorem dedupInsert_requests_of_ne (s : DedupState) (now : Nat) (k key : String)
    (h : key ≠ k) : (dedupInsert s now k).requests key = s.requests key := by
  simp [dedupInsert, h]

theorem dedupInsert_ttl (s : DedupState) (now : Nat) (k : String) :
    (dedupInsert s now k).ttl = s.ttl := rfl

theorem checkAndMark_snd_requests_of_ne (s : DedupState) (now : Nat) (k key : String)
    (h : key ≠ k) : (checkAndMark s now k).2.requests key = s.requests key := by
  unfold checkAndMark
  cases hsk : s.requests k with
  | none => exact dedupInsert_requests_of_ne s now k key h
  | some e =>
      dsimp only
      by_cases hexp : now - e.createdAt > s.ttl
      · rw [if_pos hexp]
        exact dedupInsert_requests_of_ne s now k key h
      · rw [if_neg hexp]

theorem checkAndMark_snd_ttl (s : DedupState) (now : Nat) (k : String) :
    (checkAndMark s now k).2.ttl = s.ttl := by
  unfold checkAndMark
  cases hsk : s.requests k with
  | none => rfl
  | some e =>
      dsimp only
      by_cases hexp : now - e.createdAt > s.ttl
      · rw [if_pos hexp]; rfl
      · rw [if_neg hexp]

theorem checkAndMark_snd_of_unexpired (s : DedupState) (now : Nat) (key : String)
    (e : DedupEntry) (hs : s.requests key = some e) (hnow : ¬ now - e.createdAt > s.ttl) :
    (checkAndMark s now key).2 = s := by
  unfold checkAndMark
  rw [hs]
  dsimp only
  rw [if_neg hnow]

theorem dedupComplete_requests_of_ne (s : DedupState) (k key : String) (h : key ≠ k) :
    (dedupComplete s k).requests key = s.requests key := by
  unfold dedupComplete
  cases hsk : s.requests k with
  | none => rfl
  | some e =>
      dsimp only
      simp [h]

theorem dedupComplete_ttl (s : DedupState) (k : String) :
    (dedupComplete s k).ttl = s.ttl := by
  unfold dedupComplete
  cases hsk : s.requests k with
  | none => rfl
  | some e => rfl

theorem dedupFail_requests_of_ne (s : DedupState) (k key : String) (h : key ≠ k) :
    (dedupFail s k).requests key = s.requests key := by
  unfold dedupFail
  cases hsk : s.requests k with
  | none => rfl
  | some e =>
      dsimp only
      simp [h]

theorem dedupFail_ttl (s : DedupState) (k : String) :
    (dedupFail s k).ttl = s.ttl := by
  unfold dedupFail
  cases hsk : s.requests k with
  | none => rfl
  | some e => rfl

/-- An entry created at `t0` with handle `h` survives (with its handle and
creation time intact) any operation sequence that never removes its key
and whose clock stays inside the TTL window. -/
theorem dedup_entry_preserved (key : String) (t0 hdl ttl : Nat) (ops : List DedupOp) :
    ∀ (s : DedupState) (st : DedupStatus),
      s.requests key = some { createdAt := t0, status := st, handle := hdl } →
      s.ttl = ttl →
      (∀ op ∈ ops, opBounded t0 ttl op ∧ op ≠ DedupOp.remove key) →
      ∃ st', (dedupRun s ops).requests key =
          some { createdAt := t0, status := st', handle := hdl } ∧
        (dedupRun s ops).ttl = ttl := by
  induction ops with
  | nil => intro s st hs httl _; exact ⟨st, hs, httl⟩
  | cons op ops ih =>
      intro s st hs httl hops
      have hop := hops op (List.mem_cons_self _ _)
      have hrest : ∀ o ∈ ops, opBounded t0 ttl o ∧ o ≠ DedupOp.remove key := by
        intro o ho; exact hops o (List.mem_cons_of_mem _ ho)
      rw [dedupRun_cons]
      cases op with
      | cam k now =>
          by_cases hk : k = key
          · subst hk
            have hnow : ¬ now - t0 > s.ttl := by
              have := hop.1
              simp only [opBounded] at this
              rw [httl]
              omega
            have hstep : dedupStep s (DedupOp.cam k now) = s :=
              checkAndMark_snd_of_unexpired s now k _ hs hnow
            rw [hstep]
            exact ih s st hs httl hrest
          · have hk' : key ≠ k := fun hq => hk hq.symm
            exact ih _ st
              (by rw [show dedupStep s (DedupOp.cam k now) = (checkAndMark s now k).2 from rfl,
                    checkAndMark_snd_requests_of_ne s now k key hk']
                  exact hs)
              (by rw [show dedupStep s (DedupOp.cam k now) = (checkAndMark s now k).2 from rfl,
                    checkAndMark_snd_ttl]
                  exact httl)
              hrest
      | complete k =>
          by_cases hk : k = key
          · subst hk
            have hstep : (dedupStep s (DedupOp.complete k)).requests k =
                some { createdAt := t0, status := DedupStatus.completed, handle := hdl } := by
              show (dedupComplete s k).requests k = _
              unfold dedupComplete
              rw [hs]
              dsimp only
              simp
            exact ih _ DedupStatus.completed hstep
              (by rw [show dedupStep s (DedupOp.complete k) = dedupComplete s k from rfl,
                    dedupComplete_ttl]
                  exact httl)
              hrest
          · have hk' : key ≠ k := fun hq => hk hq.symm
            exact ih _ st
              (by rw [show dedupStep s (DedupOp.complete k) = dedupComplete s k from rfl,
                    dedupComplete_requests_of_ne s k key hk']
                  exact hs)
              (by rw [show dedupStep s (DedupOp.complete k) = dedupComplete s k from rfl,
                    dedupComplete_ttl]
                  exact httl)
              hrest
      | fail k =>
          by_cases hk : k = key
          · subst hk
            have hstep : (dedupStep s (DedupOp.fail k)).requests k =
                some { createdAt := t0, status := DedupStatus.failed, handle := hdl } := by
              show (dedupFail s k).requests k = _
              unfold dedupFail
              rw [hs]
              dsimp only
              simp
            exact ih _ DedupStatus.failed hstep
              (by rw [show dedupStep s (DedupOp.fail k) = dedupFail s k from rfl, dedupFail_ttl]
                  exact httl)
              hrest
          · have hk' : key ≠ k := fun hq => hk hq.symm
            exact ih _ st
              (by rw [show dedupStep s (DedupOp.fail k) = dedupFail s k from rfl,
                    dedupFail_requests_of_ne s k key hk']
                  exact hs)
              (by rw [show dedupStep s (DedupOp.fail k) = dedupFail s k from rfl, dedupFail_ttl]
                  exact httl)
              hrest
      | remove k =>
          have hk : key ≠ k := by
            intro hkey
            exact hop.2 (by rw [hkey])
          exact ih _ st
            (by show (dedupRemove s k).requests key = _
                unfold dedupRemove
                simp [hk]
                exact hs)
            (by show (dedupRemove s k).ttl = ttl; exact httl)
            hrest
      | cleanup now =>
          have hnow : ¬ now - t0 > ttl := by
            have := hop.1
            simp only [opBounded] at this
            omega
          exact ih _ st
            (by show (dedupCleanup s now).requests key = _
                unfold dedupCleanup
                dsimp only
                rw [hs]
                dsimp only
                rw [if_neg (by rw [httl]; simpa using hnow)])
            (by show (dedupCleanup s now).ttl = ttl; exact httl)
            hrest

/-- A non-duplicate `CheckAndMark` installs a fresh pending entry carrying
the next handle. -/
theorem checkAndMark_fresh (s : DedupState) (now : Nat) (key : String)
    (hfree : (checkAndMark s now key).1.1 = false) :
    (checkAndMark s now key).2.requests key =
      some { createdAt := now, status := DedupStatus.pending, handle := s.nextHandle } ∧
    (checkAndMark s now key).2.ttl = s.ttl := by
  unfold checkAndMark at hfree ⊢
  cases hsk : s.requests key with
  | none =>
      dsimp only
      constructor
      · simp [dedupInsert]
      · rfl
  | some e =>
      rw [hsk] at hfree
      dsimp only at hfree ⊢
      by_cases hexp : now - e.createdAt > s.ttl
      · rw [if_pos hexp]
        constructor
        · simp [dedupInsert]
        · rfl
      · rw [if_neg hexp] at hfree
        cases hfree

/-- A `CheckAndMark` that finds an unexpired entry reports a duplicate
with that entry's handle. -/
theorem checkAndMark_dup (s : DedupState) (now : Nat) (key : String) (e : DedupEntry)
    (hs : s.requests key = some e) (hnow : ¬ now - e.createdAt > s.ttl) :
    (checkAndMark s now key).1 = (true, some e.handle) := by
  unfold checkAndMark
  rw [hs]
  dsimp only
  rw [if_neg hnow]

/-- C3 (confirmed): once `check_and_mark(key)` has returned non-duplicate,
every later `check_and_mark` of the same key within the TTL window — with
no intervening `Remove(key)` — returns `duplicate = true` together with
the original entry's wait handle.  Hence at most one caller proceeds past
the dedup gate for a given key inside the window. -/
theorem dedup_duplicate_within_ttl (s0 : DedupState) (key : String) (t0 t : Nat)
    (ops : List DedupOp)
    (hfirst : (checkAndMark s0 t0 key).1.1 = false)
    (hops : ∀ op ∈ ops, opBounded t0 s0.ttl op ∧ op ≠ DedupOp.remove key)
    (ht : t ≤ t0 + s0.ttl) :
    (checkAndMark (dedupRun (checkAndMark s0 t0 key).2 ops) t key).1 =
      (true, some s0.nextHandle) := by
  obtain ⟨hentry, httl⟩ := checkAndMark_fresh s0 t0 key hfirst
  obtain ⟨st', hfin, hfinttl⟩ :=
    dedup_entry_preserved key t0 s0.nextHandle s0.ttl ops _ DedupStatus.pending hentry httl hops
  have := checkAndMark_dup (dedupRun (checkAndMark s0 t0 key).2 ops) t key _ hfin
    (by rw [hfinttl]; dsimp only; omega)
  simpa using this

/-- C3 exercised concretely: an empty deduplicator marks key `"k"` at time
0; a duplicate probe, a completion, a probe of another key and a sweep all
happen inside the 300 s TTL; the final `check_and_mark` of `"k"` at time
250 reports a duplicate carrying the original handle 0. -/
theorem dedup_duplicate_within_ttl_witness :
    (checkAndMark
        (dedupRun
          (checkAndMark
            { requests := fun _ => none, ttl := 300, nextHandle := 0 } 0 "k").2
          [DedupOp.cam "k" 10, DedupOp.complete "k", DedupOp.cam "other" 50,
           DedupOp.cleanup 200])
        250 "k").1 = (true, some 0) :=
  dedup_duplicate_within_ttl
    { requests := fun _ => none, ttl := 300, nextHandle := 0 } "k" 0 250
    [DedupOp.cam "k" 10, DedupOp.complete "k", DedupOp.cam "other" 50, DedupOp.cleanup 200]
    rfl
    (by intro op hop
        fin_cases hop <;> exact ⟨by simp [opBounded], by simp⟩)
    (by show (250 : Nat) ≤ 0 + 300; omega)

/-! ## Structured-output codec (`internal/review/formatter.go`) -/

/-- Go's `unicode.IsSpace` on the ASCII range (the characters
`strings.TrimSpace` strips from the pipeline's ASCII text). -/
def isGoSpace (c : Char) : Bool :=
  c = ' ' || c = '\t' || c = '\n' || c = '\x0b' || c = '\x0c' || c = '\r'

/-- Trim trailing whitespace. -/
def trimRightL (cs : List Char) : List Char :=
  (cs.reverse.dropWhile isGoSpace).reverse

/-- `strings.TrimSpace` on character lists. -/
def trimL (cs : List Char) : List Char :=
  trimRightL (cs.dropWhile isGoSpace)

/-- `strings.Split(s, "\n")` on character lists. -/
def splitNL : List Char → List (List Char)
  | [] => [[]]
  | c :: cs =>
      if c = '\n' then [] :: splitNL cs
      else
        match splitNL cs with
        | [] => [[c]]
        | h :: t => (c :: h) :: t

/-- `fmt.Sscanf(s, "%d", &n)`: skip leading spaces, optional sign, then a
non-empty run of digits (trailing garbage is ignored). -/
def sscanfInt (cs : List Char) : Option Int :=
  let cs1 := cs.dropWhile isGoSpace
  let parseDigits : List Char → Option Int := fun ds =>
    let run := ds.takeWhile Char.isDigit
    if run.isEmpty then none
    else some (Int.ofNat (run.foldl (fun a c => a * 10 + (c.toNat - 48)) 0))
  match cs1 with
  | '-' :: rest => (parseDigits rest).map (fun n => -n)
  | '+' :: rest => parseDigits rest
  | _ => parseDigits cs1

/-- Split at the last `':'` (`strings.LastIndex(ref, ":")`), returning the
text before and after it. -/
def lastColonSplit : List Char → Option (List Char × List Char)
  | [] => none
  | c :: cs =>
      match lastColonSplit cs with
      | some (b, a) => some (c :: b, a)
      | none => if c = ':' then some ([], cs) else none

/-- The backtick character, `U+0060`. -/
def backtickChar : Char := Char.ofNat 96

/-- First index of character `c` (`strings.Index`). -/
def idxOfChar (c : Char) : List Char → Option Nat
  | [] => none
  | x :: xs => if x = c then some 0 else (idxOfChar c xs).map (· + 1)

/-- The `FILE:` branch of `parseFileReference`: strip the prefix, trim,
split at the last colon and `Sscanf` the line number. -/
def parseFileRefDirect (t : List Char) : Option (List Char × Int) :=
  match lastColonSplit (trimL (t.drop 5)) with
  | some (before, after) =>
      match sscanfInt after with
      | some n => some (before, n)
      | none => none
  | none => none

/-- The backtick branch of `parseFileReference`: find a backtick-delimited
span (searching the lowercased text, slicing the original — index
preserving for the character-wise lowering) and parse `path:line` inside
it. -/
def parseFileRefBacktick (text : List Char) : Option (List Char × Int) :=
  match idxOfChar backtickChar (text.map Char.toLower) with
  | none => none
  | some i =>
      match idxOfChar backtickChar ((text.map Char.toLower).drop (i + 1)) with
      | none => none
      | some e =>
          match lastColonSplit (((text.drop (i + 1)).take e)) with
          | some (before, after) =>
              match sscanfInt after with
              | some n => some (before, n)
              | none => none
          | none => none

/-- `review.parseFileReference`: try the `FILE:` form, then the
backtick-wrapped form. -/
def parseFileReference (text : List Char) : Option (List Char × Int) :=
  let t := trimL text
  match (if startsWithL t "FILE:".toList then parseFileRefDirect t else none) with
  | some r => some r
  | none => parseFileRefBacktick text

/-- `models.ReviewComment` as the codec produces it (`Severity` is filled
in elsewhere; the parser leaves it empty). -/
structure RComment where
  path : String
  line : Int
  severity : String := ""
  body : String
  deriving Repr, DecidableEq

/-- The mutable locals of `ParseStructuredReview`'s loop. -/
structure ParseState where
  summary : List Char
  curFile : List Char
  curLine : Int
  curComment : List Char
  inComment : Bool
  comments : List RComment
  deriving Repr, DecidableEq

/-- "Save previous comment if any": append the pending comment (trimmed)
when both a current file and a non-empty body exist, resetting the
builder. -/
def flushComment (st : ParseState) : ParseState :=
  if st.curFile ≠ [] ∧ st.curComment ≠ [] then
    { st with
      comments := st.comments ++
        [{ path := String.mk st.curFile, line := st.curLine, severity := "",
           body := String.mk (trimL st.curComment) }],
      curComment := [] }
  else st

/-- One iteration of `ParseStructuredReview`'s line loop. -/
def parseLine (st : ParseState) (line : List Char) : ParseState :=
  let trimmed := trimL line
  if startsWithL trimmed "FILE:".toList then
    let st1 := flushComment st
    match parseFileReference trimmed with
    | some (f, n) => { st1 with curFile := f, curLine := n, inComment := false }
    | none => st1
  else if startsWithL trimmed "COMMENT:".toList then
    let commentText := trimL (trimmed.drop 8)
    if commentText ≠ [] then
      { st with inComment := true, curComment := st.curComment ++ commentText ++ ['\n'] }
    else { st with inComment := true }
  else if st.inComment ∧ st.curFile ≠ [] then
    { st with curComment := st.curComment ++ line ++ ['\n'] }
  else if ¬ st.inComment then
    { st with summary := st.summary ++ line ++ ['\n'] }
  else st

/-- The initial parse state. -/
def initParseState : ParseState :=
  { summary := [], curFile := [], curLine := 0, curComment := [], inComment := false,
    comments := [] }

/-- `review.ParseStructuredReview`: walk the lines, flush the final
comment, and return the trimmed summary with the comment list. -/
def ParseStructuredReview (s : String) : String × List RComment :=
  let st := (splitNL s.toList).foldl parseLine initParseState
  let st1 := flushComment st
  (String.mk (trimL st1.summary), st1.comments)

theorem splitNL_ne_nil : ∀ cs : List Char, splitNL cs ≠ [] := by
  intro cs
  cases cs with
  | nil => simp [splitNL]
  | cons c cs =>
      rw [splitNL]
      by_cases hc : c = '\n'
      · rw [if_pos hc]; simp
      · rw [if_neg hc]
        cases splitNL cs with
        | nil => simp
        | cons h t => simp

/-- Splitting on newlines and rejoining each line with a trailing newline
reconstructs the input plus one final newline — exactly the string the
summary builder accumulates. -/
theorem join_splitNL : ∀ cs : List Char,
    ((splitNL cs).map (fun l => l ++ ['\n'])).flatten = cs ++ ['\n'] := by
  intro cs
  induction cs with
  | nil => simp [splitNL]
  | cons c cs ih =>
      rw [splitNL]
      by_cases hc : c = '\n'
      · rw [if_pos hc, hc]
        simpa using ih
      · rw [if_neg hc]
        cases hsp : splitNL cs with
        | nil => exact absurd hsp (splitNL_ne_nil cs)
        | cons h t =>
            rw [hsp] at ih
            simp only [List.map_cons, List.flatten_cons, List.cons_append,
              List.append_assoc, List.singleton_append] at ih ⊢
            rw [ih]

theorem trimRightL_append_newline (cs : List Char) :
    trimRightL (cs ++ ['\n']) = trimRightL cs := by
  unfold trimRightL
  rw [List.reverse_append]
  simp [List.dropWhile, isGoSpace]

theorem trimL_append_newline (cs : List Char) :
    trimL (cs ++ ['\n']) = trimL cs := by
  unfold trimL
  rcases hdw : cs.dropWhile isGoSpace with _ | ⟨d, ds⟩
  · have h2 : (cs ++ ['\n']).dropWhile isGoSpace = [] := by
      rw [List.dropWhile_append, hdw]
      simp
      decide
    rw [h2]
  · have h2 : (cs ++ ['\n']).dropWhile isGoSpace = (d :: ds) ++ ['\n'] := by
      rw [List.dropWhile_append, hdw]
      simp
    rw [h2, trimRightL_append_newline]

/-- A line that carries neither a `FILE:` nor a `COMMENT:` marker, seen
outside a comment block, lands on the summary builder. -/
theorem parseLine_no_marker (st : ParseState) (line : List Char)
    (h1 : startsWithL (trimL line) "FILE:".toList = false)
    (h2 : startsWithL (trimL line) "COMMENT:".toList = false)
    (hin : st.inComment = false) :
    parseLine st line = { st with summary := st.summary ++ line ++ ['\n'] } := by
  simp only [parseLine, h1, h2, hin]
  simp

theorem foldl_parseLine_no_marker (lines : List (List Char)) :
    ∀ st : ParseState,
      (∀ l ∈ lines, startsWithL (trimL l) "FILE:".toList = false ∧
        startsWithL (trimL l) "COMMENT:".toList = false) →
      st.inComment = false →
      lines.foldl parseLine st =
        { st with summary := st.summary ++ (lines.map (fun l => l ++ ['\n'])).flatten } := by
  induction lines with
  | nil => intro st _ _; simp
  | cons l lines ih =>
      intro st hl hin
      have h1 := (hl l (List.mem_cons_self _ _)).1
      have h2 := (hl l (List.mem_cons_self _ _)).2
      rw [List.foldl_cons, parseLine_no_marker st l h1 h2 hin]
      rw [ih _ (fun x hx => hl x (List.mem_cons_of_mem _ hx)) (by simp [hin])]
      simp [List.append_assoc]

/-- C7 (counterexample): the claim "any output with no `FILE:` line parses
to `(summary = whole text, comments = [])`" fails: a bare `COMMENT:`
marker flips the parser into comment mode with no current file, so the
following text is discarded; here the summary comes back empty rather
than equal to the input. -/
theorem parseStructured_summary_not_whole_text :
    (∀ line ∈ splitNL ("COMMENT: x\nhello".toList),
      startsWithL (trimL line) "FILE:".toList = false) ∧
    (ParseStructuredReview "COMMENT: x\nhello").2 = [] ∧
    (ParseStructuredReview "COMMENT: x\nhello").1 = "" ∧
    (ParseStructuredReview "COMMENT: x\nhello").1 ≠ "COMMENT: x\nhello" := by
  refine ⟨by decide, by decide, by decide, by decide⟩

/-- C7 (amended): for any output containing no line that (after trimming)
begins with `FILE:` and none that begins with `COMMENT:`, the parser
returns the whitespace-trimmed input as the summary and an empty comment
list. -/
theorem parseStructured_no_markers (s : String)
    (h : ∀ line ∈ splitNL s.toList,
      startsWithL (trimL line) "FILE:".toList = false ∧
      startsWithL (trimL line) "COMMENT:".toList = false) :
    (ParseStructuredReview s).1 = String.mk (trimL s.toList) ∧
    (ParseStructuredReview s).2 = [] := by
  unfold ParseStructuredReview
  rw [foldl_parseLine_no_marker (splitNL s.toList) initParseState h rfl]
  rw [join_splitNL]
  simp only [initParseState]
  constructor
  · show String.mk (trimL (flushComment _).summary) = _
    unfold flushComment
    simp only [List.nil_append]
    rw [if_neg (by simp)]
    rw [trimL_append_newline]
  · show (flushComment _).comments = []
    unfold flushComment
    rw [if_neg (by simp)]

/-- C7 amended claim exercised at a concrete marker-free input with
leading and trailing whitespace. -/
theorem parseStructured_no_markers_witness :
    (ParseStructuredReview " a summary\nsecond line ").1 =
      String.mk (trimL (" a summary\nsecond line ".toList)) ∧
    (ParseStructuredReview " a summary\nsecond line ").2 = [] :=
  parseStructured_no_markers " a summary\nsecond line " (by decide)

/-! ## Command grammar (`pkg/models` and `webhook.go`'s `parseCommand`) -/

/-- `models.ReviewMode`. -/
inductive ReviewMode
  | review
  | hunt
  | security
  | performance
  | analyze
  deriving Repr, DecidableEq

/-- The string each mode renders as. -/
def modeString : ReviewMode → String
  | ReviewMode.review => "review"
  | ReviewMode.hunt => "hunt"
  | ReviewMode.security => "security"
  | ReviewMode.performance => "performance"
  | ReviewMode.analyze => "analyze"

/-- `models.Command`. -/
structure Command where
  mode : ReviewMode
  verbose : Bool
  raw : String
  deriving Repr, DecidableEq

/-- RE2's `\w`: `[0-9A-Za-z_]`. -/
def isWordChar (c : Char) : Bool := c.isAlphanum || c = '_'

/-- RE2's `\s`: `[\t\n\f\r ]`. -/
def isReSpace (c : Char) : Bool :=
  c = ' ' || c = '\t' || c = '\n' || c = '\x0c' || c = '\r'

/-- Case-insensitive prefix test (the effect of `(?i)` on a literal). -/
def ciStartsWith : List Char → List Char → Bool
  | _, [] => true
  | [], _ :: _ => false
  | a :: s, b :: p => (a.toLower == b.toLower) && ciStartsWith s p

/-- Match `(?i)@<bot>\s+(\w+)(?:\s+(verbose))?` anchored at the head of
`s`.  Returns the mode word, whether the optional `verbose` group
matched, and the full matched text. -/
def matchCmdAt (bot s : List Char) : Option (List Char × Bool × List Char) :=
  if ciStartsWith s ('@' :: bot) then
    let rest1 := s.drop (bot.length + 1)
    let sp1 := rest1.takeWhile isReSpace
    if sp1.isEmpty then none
    else
      let rest2 := rest1.drop sp1.length
      let word := rest2.takeWhile isWordChar
      if word.isEmpty then none
      else
        let rest3 := rest2.drop word.length
        let sp2 := rest3.takeWhile isReSpace
        let verb := ¬ sp2.isEmpty && ciStartsWith (rest3.drop sp2.length) "verbose".toList
        let len := 1 + bot.length + sp1.length + word.length +
          (if verb then sp2.length + 7 else 0)
        some (word, verb, s.take len)
  else none

/-- Leftmost match of the command regex (`FindStringSubmatch` scans
positions left to right). -/
def findCmd (bot : List Char) : List Char → Option (List Char × Bool × List Char)
  | [] => none
  | s@(_ :: rest) =>
      match matchCmdAt bot s with
      | some r => some r
      | none => findCmd bot rest

/-- `WebhookHandler.parseCommand`: regex match, then map the lowercased
mode word onto `ReviewMode` with unknown modes defaulting to `review`. -/
def parseCommand (bot body : String) : Option Command :=
  match findCmd bot.toList body.toList with
  | none => none
  | some (word, verb, raw) =>
      let modeStr := String.mk (word.map Char.toLower)
      let mode :=
        if modeStr = "review" then ReviewMode.review
        else if modeStr = "hunt" then ReviewMode.hunt
        else if modeStr = "security" then ReviewMode.security
        else if modeStr = "performance" then ReviewMode.performance
        else if modeStr = "analyze" then ReviewMode.analyze
        else ReviewMode.review
      some { mode := mode, verbose := verb, raw := String.mk raw }

/-! ## Webhook ingress (`internal/github/webhook.go`, `Server.handleCommand`) -/

/-- The fields of the webhook JSON payload the handler reads. -/
structure PComment where
  id : Int
  body : String
  deriving Repr, DecidableEq

/-- `Issue`: its number and whether `issue.pull_request` is present. -/
structure PIssue where
  number : Int
  hasPullRequest : Bool
  deriving Repr, DecidableEq

/-- `PullRequest` head data as the pipeline consumes it (`headSHA = none`
models a `nil` `Head` pointer). -/
structure PPullRequest where
  number : Int
  headSHA : Option String
  title : String
  deriving Repr, DecidableEq

/-- `Repository`. -/
structure PRepo where
  ownerLogin : String
  name : String
  fullName : String
  isPrivate : Bool
  deriving Repr, DecidableEq

/-- The decoded `webhookPayload`.  JSON decoding itself is a collaborator
(`encoding/json`); the handler model receives the decoder as an oracle. -/
structure PayloadM where
  action : String
  repository : PRepo
  comment : Option PComment
  issue : Option PIssue
  pullRequest : Option PPullRequest
  senderLogin : String
  deriving Repr, DecidableEq

/-- The command event `parseEvent` hands to `onCommand`. -/
structure WebhookEventM where
  eventType : String
  action : String
  repository : PRepo
  prNumber : Int
  prHeadSHA : Option String
  commentID : Int
  commentBody : String
  senderLogin : String
  command : Command
  deriving Repr, DecidableEq

/-- `WebhookHandler.parseEvent`: filter to created comment events, parse
the command, and resolve the PR identity (issue comments must carry
`issue.pull_request`; review comments use the payload's `pull_request`,
which the model — like every delivered event — assumes present, since the
Go code dereferences it unconditionally when logging). -/
def parseEvent (bot eventType : String) (payload : Option PayloadM) :
    Except Unit (Option WebhookEventM) :=
  match payload with
  | none => Except.error ()
  | some p =>
      if eventType ≠ "issue_comment" ∧ eventType ≠ "pull_request_review_comment" then
        Except.ok none
      else if p.action ≠ "created" then Except.ok none
      else
        match p.comment with
        | none => Except.ok none
        | some c =>
            match parseCommand bot c.body with
            | none => Except.ok none
            | some cmd =>
                if eventType = "issue_comment" then
                  match p.issue with
                  | some iss =>
                      if iss.hasPullRequest then
                        Except.ok (some
                          { eventType := eventType, action := p.action,
                            repository := p.repository, prNumber := iss.number,
                            prHeadSHA := none, commentID := c.id, commentBody := c.body,
                            senderLogin := p.senderLogin, command := cmd })
                      else Except.ok none
                  | none => Except.ok none
                else
                  match p.pullRequest with
                  | some pr =>
                      Except.ok (some
                        { eventType := eventType, action := p.action,
                          repository := p.repository, prNumber := pr.number,
                          prHeadSHA := pr.headSHA, commentID := c.id, commentBody := c.body,
                          senderLogin := p.senderLogin, command := cmd })
                  | none => Except.ok none

/-- Observable actions on the ingress path.  `persistReview` and
`enqueueTask` can only be produced by the command-processing goroutine
(`handleCommand`), never by the HTTP handler itself. -/
inductive IngressEffect
  | respond (status : Nat)
  | spawnCommand (ev : WebhookEventM)
  | persistReview
  | enqueueTask (taskID : String)
  deriving Repr, DecidableEq

/-- An incoming HTTP request as `HandleWebhook` observes it
(`body = none` models a failing body read; a missing signature header
reads as `""`). -/
structure HttpRequest where
  method : String
  body : Option String
  signature : String
  eventType : String
  deriving Repr, DecidableEq

/-- `WebhookHandler.verifySignature`.  `hmacHex secret body` stands for
`hex(HMAC-SHA256(secret, body))`; the constant-time comparison is
equality. -/
def verifySignature (hmacHex : String → String → String) (secret body signature : String) :
    Bool :=
  if signature = "" then false
  else if ¬ startsWithL signature.toList "sha256=".toList then false
  else (signature.drop 7) == hmacHex secret body

/-- `WebhookHandler.HandleWebhook`: the ordered synchronous effects of one
request.  Command processing is spawned on a separate goroutine
(`go h.onCommand(event)`) and the 202 is written immediately after. -/
def handleWebhook (hmacHex : String → String → String)
    (decode : String → Option PayloadM) (secret bot : String) (req : HttpRequest) :
    List IngressEffect :=
  if req.method ≠ "POST" then [IngressEffect.respond 405]
  else
    match req.body with
    | none => [IngressEffect.respond 400]
    | some body =>
        if ¬ verifySignature hmacHex secret body req.signature then
          [IngressEffect.respond 401]
        else
          match parseEvent bot req.eventType (decode body) with
          | Except.error _ => [IngressEffect.respond 400]
          | Except.ok none => [IngressEffect.respond 200]
          | Except.ok (some ev) =>
              [IngressEffect.spawnCommand ev, IngressEffect.respond 202]

/-- C1 (confirmed): every POST whose `X-Hub-Signature-256` header is
missing, lacks the `sha256=` prefix, or differs from the body's HMAC
digest is answered 401 with no other observable action: no spawn, hence
no command parse, no Review row, no task, no reaction.  The statement
quantifies over the JSON decoder and downstream processing, so nothing
past the signature check can influence the outcome. -/
theorem webhook_bad_signature_401 (hmacHex : String → String → String)
    (decode : String → Option PayloadM) (secret bot : String) (req : HttpRequest)
    (b : String) (hm : req.method = "POST") (hb : req.body = some b)
    (hbad : req.signature = "" ∨
      startsWithL req.signature.toList "sha256=".toList = false ∨
      req.signature.drop 7 ≠ hmacHex secret b) :
    handleWebhook hmacHex decode secret bot req = [IngressEffect.respond 401] := by
  have hv : verifySignature hmacHex secret b req.signature = false := by
    unfold verifySignature
    rcases hbad with h | h | h
    · rw [if_pos h]
    · by_cases h0 : req.signature = ""
      · rw [if_pos h0]
      · rw [if_neg h0, if_pos (by rw [h]; simp)]
    · by_cases h0 : req.signature = ""
      · rw [if_pos h0]
      · rw [if_neg h0]
        by_cases h1 : startsWithL req.signature.toList "sha256=".toList
        · rw [if_neg (by simpa using h1)]
          simpa using h
        · rw [if_pos (by simpa using h1)]
  unfold handleWebhook
  rw [if_neg (by rw [hm]; simp), hb]
  dsimp only
  rw [if_pos (by rw [hv]; simp)]

/-- C1 exercised concretely: a POST whose signature digest mismatches the
oracle's HMAC value is refused with 401 only. -/
theorem webhook_bad_signature_401_witness :
    handleWebhook (fun _ _ => "aa") (fun _ => none) "secret" "techy"
      { method := "POST", body := some "x", signature := "sha256=bb",
        eventType := "issue_comment" } = [IngressEffect.respond 401] :=
  webhook_bad_signature_401 (fun _ _ => "aa") (fun _ => none) "secret" "techy"
    { method := "POST", body := some "x", signature := "sha256=bb",
      eventType := "issue_comment" } "x" rfl rfl
    (Or.inr (Or.inr (by decide)))

/-- Observable actions of `Server.handleCommand` (the spawned
command-processing goroutine). -/
inductive CmdEffect
  | reaction (name : String)
  | dedupCheck (key : String)
  | fetchPR
  | upsertRepository
  | createReview
  | createWebhookEvent
  | enqueue (taskID : String)
  | updateReview (status : String) (errMsg : Option String)
  | dedupComplete (key : String)
  deriving Repr, DecidableEq

/-- Outcome of `asynqClient.Enqueue`. -/
inductive EnqueueResult
  | ok
  | duplicateTask
  | failed
  deriving Repr, DecidableEq

/-- Collaborator outcomes observed during one `handleCommand` run. -/
structure CmdEnv where
  dedupEnabled : Bool
  dedupDuplicate : Bool
  storePresent : Bool
  createReviewOk : Bool
  fetchedHeadSHA : Option String
  enqueueResult : EnqueueResult
  deriving Repr, DecidableEq

/-- The broker task ID: `review:{owner}/{repo}/{pr}` with `:{sha}`
appended when a commit SHA is known. -/
def reviewTaskID (owner repo : String) (pr : Int) (sha : String) : String :=
  let base := "review:" ++ owner ++ "/" ++ repo ++ "/" ++ toString pr
  if sha ≠ "" then base ++ ":" ++ sha else base

/-- `dedup.RequestKeyWithMode`: `review:{owner}/{repo}/{pr}:{sha}:{mode}`. -/
def dedupKeyWithMode (owner repo : String) (pr : Int) (sha mode : String) : String :=
  "review:" ++ owner ++ "/" ++ repo ++ "/" ++ toString pr ++ ":" ++ sha ++ ":" ++ mode

/-- The dedup key `handleCommand` computes for an event. -/
def handleCommandKey (ev : WebhookEventM) : String :=
  dedupKeyWithMode ev.repository.ownerLogin ev.repository.name ev.prNumber
    (ev.prHeadSHA.getD "") (modeString ev.command.mode)

/-- Effects preceding the dedup verdict: the eyes reaction and (when the
deduplicator is wired) the `CheckAndMark` call. -/
def handleCommandPre (env : CmdEnv) (ev : WebhookEventM) : List CmdEffect :=
  [CmdEffect.reaction "eyes"] ++
    (if env.dedupEnabled then [CmdEffect.dedupCheck (handleCommandKey ev)] else [])

/-- The store block of `handleCommand`: optional head-SHA fetch, repository
upsert, Review creation, and (when creation succeeded) the WebhookEvent
record. -/
def handleCommandStoreEff (env : CmdEnv) (ev : WebhookEventM) : List CmdEffect :=
  if env.storePresent then
    (if ev.prHeadSHA.getD "" = "" then [CmdEffect.fetchPR] else []) ++
      [CmdEffect.upsertRepository, CmdEffect.createReview] ++
      (if env.createReviewOk then [CmdEffect.createWebhookEvent] else [])
  else []

/-- The commit SHA used for the task ID: from the event head when present,
else from the fallback PR fetch (empty when the store is absent, since the
fetch is skipped). -/
def handleCommandSHA (env : CmdEnv) (ev : WebhookEventM) : String :=
  if env.storePresent then
    if ev.prHeadSHA.getD "" ≠ "" then ev.prHeadSHA.getD "" else env.fetchedHeadSHA.getD ""
  else ""

/-- The broker task ID `handleCommand` submits. -/
def handleCommandTid (env : CmdEnv) (ev : WebhookEventM) : String :=
  reviewTaskID ev.repository.ownerLogin ev.repository.name ev.prNumber
    (handleCommandSHA env ev)

/-- The post-enqueue updates: a `cancelled` Review on a duplicate task ID
(returning success), a `failed` Review and a surfaced error otherwise. -/
def handleCommandPost (env : CmdEnv) : Option String × List CmdEffect :=
  match env.enqueueResult with
  | EnqueueResult.ok => (none, [])
  | EnqueueResult.duplicateTask =>
      (none, if env.storePresent && env.createReviewOk then
        [CmdEffect.updateReview "cancelled" (some "duplicate task")] else [])
  | EnqueueResult.failed =>
      (some "enqueue failed", if env.storePresent && env.createReviewOk then
        [CmdEffect.updateReview "failed" (some "enqueue failed")] else [])

/-- The deferred `deduplicator.Complete`, registered only after a
non-duplicate verdict. -/
def handleCommandDefer (env : CmdEnv) (ev : WebhookEventM) : List CmdEffect :=
  if env.dedupEnabled then [CmdEffect.dedupComplete (handleCommandKey ev)] else []

/-- `Server.handleCommand`: eyes reaction, dedup gate, Review persistence,
then broker submission.  Returns the error handed back to the webhook
goroutine together with the ordered effects. -/
def handleCommand (env : CmdEnv) (ev : WebhookEventM) : Option String × List CmdEffect :=
  if env.dedupEnabled && env.dedupDuplicate then (none, handleCommandPre env ev)
  else
    ((handleCommandPost env).1,
      handleCommandPre env ev ++ handleCommandStoreEff env ev ++
        [CmdEffect.enqueue (handleCommandTid env ev)] ++ (handleCommandPost env).2 ++
        handleCommandDefer env ev)

/-- A concrete constant-HMAC oracle for exercising the handler. -/
def hmacConst : String → String → String := fun _ _ => "d4c2"

/-- A concrete decoder yielding a created issue comment on PR 7 with the
command `@techy hunt`. -/
def decodeConst : String → Option PayloadM := fun _ =>
  some { action := "created",
         repository := { ownerLogin := "acme", name := "widgets",
                         fullName := "acme/widgets", isPrivate := false },
         comment := some { id := 11, body := "@techy hunt" },
         issue := some { number := 7, hasPullRequest := true },
         pullRequest := none,
         senderLogin := "alice" }

/-- The concrete request carrying a valid signature for `hmacConst`. -/
def reqConst : HttpRequest :=
  { method := "POST", body := some "payload-bytes", signature := "sha256=d4c2",
    eventType := "issue_comment" }

/-- The event `parseEvent` produces for `reqConst`/`decodeConst`. -/
def evConst : WebhookEventM :=
  { eventType := "issue_comment", action := "created",
    repository := { ownerLogin := "acme", name := "widgets",
                    fullName := "acme/widgets", isPrivate := false },
    prNumber := 7, prHeadSHA := none, commentID := 11, commentBody := "@techy hunt",
    senderLogin := "alice",
    command := { mode := ReviewMode.hunt, verbose := false, raw := "@techy hunt" } }

/-- C5 (counterexample): the handler acknowledges a valid command delivery
with 202 immediately after spawning the processing goroutine; its
synchronous effect trace contains neither a Review persistence nor a
broker submission, so the 202 is written before either has happened. -/
theorem webhook_ack_before_persistence :
    handleWebhook hmacConst decodeConst "secret" "techy" reqConst =
      [IngressEffect.spawnCommand evConst, IngressEffect.respond 202] ∧
    IngressEffect.persistReview ∉ handleWebhook hmacConst decodeConst "secret" "techy" reqConst ∧
    (∀ tid, IngressEffect.enqueueTask tid ∉
      handleWebhook hmacConst decodeConst "secret" "techy" reqConst) := by
  refine ⟨by decide, by decide, ?_⟩
  intro tid
  rw [show handleWebhook hmacConst decodeConst "secret" "techy" reqConst =
    [IngressEffect.spawnCommand evConst, IngressEffect.respond 202] from by decide]
  simp

/-- C5 (amended): whenever the handler writes 202, its synchronous trace
is exactly a goroutine spawn followed by the 202 — Review persistence and
task enqueue are not part of it; they happen inside the spawned
`handleCommand`, which (when the store is wired, the dedup gate passes,
and the Review row is created) emits `createReview` strictly before the
broker `enqueue`. -/
theorem webhook_ack_is_async (hmacHex : String → String → String)
    (decode : String → Option PayloadM) (secret bot : String) (req : HttpRequest)
    (env : CmdEnv)
    (h202 : IngressEffect.respond 202 ∈ handleWebhook hmacHex decode secret bot req)
    (hstore : env.storePresent = true) (hok : env.createReviewOk = true)
    (hnd : (env.dedupEnabled && env.dedupDuplicate) = false) :
    (∃ ev, handleWebhook hmacHex decode secret bot req =
        [IngressEffect.spawnCommand ev, IngressEffect.respond 202] ∧
      ∃ pre suf tid, (handleCommand env ev).2 = pre ++ suf ∧
        CmdEffect.createReview ∈ pre ∧ CmdEffect.enqueue tid ∈ suf ∧
        ∀ t, CmdEffect.enqueue t ∉ pre) ∧
    IngressEffect.persistReview ∉ handleWebhook hmacHex decode secret bot req ∧
    (∀ tid, IngressEffect.enqueueTask tid ∉ handleWebhook hmacHex decode secret bot req) := by
  have htrace : ∃ ev, handleWebhook hmacHex decode secret bot req =
      [IngressEffect.spawnCommand ev, IngressEffect.respond 202] := by
    unfold handleWebhook at h202 ⊢
    by_cases hm : req.method ≠ "POST"
    · rw [if_pos hm] at h202
      simp at h202
    · rw [if_neg hm] at h202
      simp only [if_neg hm]
      cases hb : req.body with
      | none =>
          rw [hb] at h202
          simp at h202
      | some body =>
          rw [hb] at h202
          dsimp only at h202 ⊢
          by_cases hv : verifySignature hmacHex secret body req.signature
          · simp only [hv, not_true_eq_false, if_false] at h202 ⊢
            cases hpe : parseEvent bot req.eventType (decode body) with
            | error e =>
                rw [hpe] at h202
                simp at h202
            | ok o =>
                cases o with
                | none =>
                    rw [hpe] at h202
                    simp at h202
                | some ev =>
                    dsimp only
                    exact ⟨ev, rfl⟩
          · simp only [Bool.not_eq_true] at hv
            simp only [hv, Bool.false_eq_true, not_false_eq_true, if_true] at h202
            simp at h202
  obtain ⟨ev, hev⟩ := htrace
  refine ⟨⟨ev, hev, ?_⟩, by rw [hev]; simp, by intro tid; rw [hev]; simp⟩
  refine ⟨handleCommandPre env ev ++ handleCommandStoreEff env ev,
    [CmdEffect.enqueue (handleCommandTid env ev)] ++ (handleCommandPost env).2 ++
      handleCommandDefer env ev,
    handleCommandTid env ev, ?_, ?_, ?_, ?_⟩
  · unfold handleCommand
    rw [hnd]
    simp [List.append_assoc]
  · simp [handleCommandStoreEff, hstore, hok]
  · simp
  · intro t
    by_cases h1 : env.dedupEnabled <;>
      by_cases h2 : ev.prHeadSHA.getD "" = "" <;>
        simp [handleCommandPre, handleCommandStoreEff, hstore, hok, h1, h2]

/-- C5 amended claim exercised at the concrete request/decoder pair, with
a store-wired environment whose enqueue succeeds. -/
theorem webhook_ack_is_async_witness :
    (∃ ev, handleWebhook hmacConst decodeConst "secret" "techy" reqConst =
        [IngressEffect.spawnCommand ev, IngressEffect.respond 202] ∧
      ∃ pre suf tid,
        (handleCommand
          { dedupEnabled := true, dedupDuplicate := false, storePresent := true,
            createReviewOk := true, fetchedHeadSHA := some "abc",
            enqueueResult := EnqueueResult.ok } ev).2 = pre ++ suf ∧
        CmdEffect.createReview ∈ pre ∧ CmdEffect.enqueue tid ∈ suf ∧
        ∀ t, CmdEffect.enqueue t ∉ pre) ∧
    IngressEffect.persistReview ∉
      handleWebhook hmacConst decodeConst "secret" "techy" reqConst ∧
    (∀ tid, IngressEffect.enqueueTask tid ∉
      handleWebhook hmacConst decodeConst "secret" "techy" reqConst) :=
  webhook_ack_is_async hmacConst decodeConst "secret" "techy" reqConst
    { dedupEnabled := true, dedupDuplicate := false, storePresent := true,
      createReviewOk := true, fetchedHeadSHA := some "abc",
      enqueueResult := EnqueueResult.ok }
    (by rw [show handleWebhook hmacConst decodeConst "secret" "techy" reqConst =
        [IngressEffect.spawnCommand evConst, IngressEffect.respond 202] from by decide]
        simp)
    rfl rfl rfl

/-! ## Review orchestrator (`review.Reviewer.ProcessReview`) -/

/-- Observable actions of one `ProcessReview` execution. -/
inductive REffect
  | updateReview (status : String) (errMsg : Option String)
  | reaction (name : String)
  | fetchPR
  | fetchDiff
  | fetchFiles
  | gatherContext
  | rateLimitWait
  | invokeLLM
  | createInlineReview
  | createComment
  | createReviewComment (path : String)
  deriving Repr, DecidableEq

/-- An error returned by a collaborator, as `ProcessReview`'s `fail`
helper classifies it: `isCancel` is `errors.Is(err, context.Canceled) ||
errors.Is(err, context.DeadlineExceeded)`. -/
structure GhErr where
  isCancel : Bool
  deriving Repr, DecidableEq

/-- The PR metadata `ProcessReview` reads. -/
structure PRInfo where
  headSHA : String
  title : String
  body : String
  deriving Repr, DecidableEq

/-- Collaborator outcomes observed during one `ProcessReview` run. -/
structure ReviewEnv where
  pr : Except GhErr PRInfo
  diff : Except GhErr String
  filesCount : Except GhErr Nat
  ctxPresent : Bool
  rlPresent : Bool
  rlWait : Option GhErr
  llm : Except GhErr String
  inlineReviewOk : Bool
  commentOk : Bool

/-- The `fail` helper: update the Review to `failed` (or `cancelled` for a
context cancellation), post the confused reaction and the error comment,
and surface the error. -/
def reviewFail (storePresent : Bool) (reviewID : Nat) (er : GhErr) (msg : String)
    (eff : List REffect) : Option GhErr × List REffect :=
  (some er,
    eff ++
      (if storePresent ∧ reviewID > 0 then
        [REffect.updateReview (if er.isCancel then "cancelled" else "failed") (some msg)]
      else []) ++
      [REffect.reaction "confused", REffect.createComment])

/-- The tail of `ProcessReview` past the stale-commit gate: diff and file
fetch, context gathering, rate-limit wait, the LLM call under retry,
structured-output parsing, result posting with comment-fallback, and the
terminal bookkeeping. -/
def processReviewMain (storePresent : Bool) (reviewID : Nat) (env : ReviewEnv)
    (eff0 : List REffect) : Option GhErr × List REffect :=
  let eff1 := eff0 ++ [REffect.fetchDiff]
  match env.diff with
  | Except.error er => reviewFail storePresent reviewID er "Failed to fetch PR diff" eff1
  | Except.ok _ =>
    let eff2 := eff1 ++ [REffect.fetchFiles]
    match env.filesCount with
    | Except.error er => reviewFail storePresent reviewID er "Failed to fetch PR files" eff2
    | Except.ok _ =>
      let eff3 := eff2 ++ (if env.ctxPresent then [REffect.gatherContext] else [])
      let eff4 := eff3 ++ (if env.rlPresent then [REffect.rateLimitWait] else [])
      match (if env.rlPresent then env.rlWait else none) with
      | some er => reviewFail storePresent reviewID er "Rate limit wait cancelled" eff4
      | none =>
        let eff5 := eff4 ++ [REffect.invokeLLM]
        match env.llm with
        | Except.error er =>
            reviewFail storePresent reviewID er "Failed to get review from Claude" eff5
        | Except.ok review =>
          let parsed := ParseStructuredReview review
          let inline := parsed.2
          if inline ≠ [] then
            let eff6 := eff5 ++ [REffect.createInlineReview]
            if env.inlineReviewOk then
              let eff7 := eff6 ++
                (if storePresent ∧ reviewID > 0 then
                  inline.map (fun c => REffect.createReviewComment c.path) else [])
              (none, eff7 ++ [REffect.reaction "rocket"] ++
                (if storePresent ∧ reviewID > 0 then
                  [REffect.updateReview "completed" none] else []))
            else
              let eff7 := eff6 ++ [REffect.createComment]
              if env.commentOk then
                (none, eff7 ++ [REffect.reaction "rocket"] ++
                  (if storePresent ∧ reviewID > 0 then
                    [REffect.updateReview "completed" none] else []))
              else
                reviewFail storePresent reviewID { isCancel := false }
                  "Failed to post review" eff7
          else
            let eff6 := eff5 ++ [REffect.createComment]
            if env.commentOk then
              (none, eff6 ++ [REffect.reaction "rocket"] ++
                (if storePresent ∧ reviewID > 0 then
                  [REffect.updateReview "completed" none] else []))
            else
              reviewFail storePresent reviewID { isCancel := false }
                "Failed to post review" eff6

/-- `Reviewer.ProcessReview`: mark processing, eyes reaction, PR fetch,
stale-commit gate, then the main pipeline.  `expectedSHA` is
`event.PullRequest.Head.SHA` (`none` when the event carries no head). -/
def processReview (storePresent : Bool) (reviewID : Nat) (expectedSHA : Option String)
    (env : ReviewEnv) : Option GhErr × List REffect :=
  let pre := (if storePresent ∧ reviewID > 0 then
      [REffect.updateReview "processing" none] else []) ++
    [REffect.reaction "eyes", REffect.fetchPR]
  match env.pr with
  | Except.error er => reviewFail storePresent reviewID er "Failed to fetch PR details" pre
  | Except.ok pr =>
      match expectedSHA with
      | some s =>
          if s ≠ "" ∧ pr.headSHA ≠ s then
            (none, pre ++
              (if storePresent ∧ reviewID > 0 then
                [REffect.updateReview "cancelled"
                  (some ("stale commit: expected " ++ s ++ ", got " ++ pr.headSHA))]
              else []))
          else processReviewMain storePresent reviewID env pre
      | none => processReviewMain storePresent reviewID env pre

/-- C2 (confirmed): when the recorded commit SHA is non-empty and differs
from the PR's current head, `ProcessReview` updates the Review to
`cancelled` with the stale-commit message, returns success (`nil`) so the
broker does not retry, never invokes the LLM or posts any comment or
review, and reaches no other terminal state: the only status updates are
`processing` and this `cancelled`. -/
theorem processReview_stale_cancels (reviewID : Nat) (s : String) (pr : PRInfo)
    (env : ReviewEnv) (expectedSHA : Option String)
    (hid : reviewID > 0) (hexp : expectedSHA = some s) (hs : s ≠ "")
    (hpr : env.pr = Except.ok pr) (hne : pr.headSHA ≠ s) :
    (processReview true reviewID expectedSHA env).1 = none ∧
    (processReview true reviewID expectedSHA env).2 =
      [REffect.updateReview "processing" none, REffect.reaction "eyes", REffect.fetchPR,
       REffect.updateReview "cancelled"
         (some ("stale commit: expected " ++ s ++ ", got " ++ pr.headSHA))] ∧
    REffect.invokeLLM ∉ (processReview true reviewID expectedSHA env).2 ∧
    REffect.createComment ∉ (processReview true reviewID expectedSHA env).2 ∧
    REffect.createInlineReview ∉ (processReview true reviewID expectedSHA env).2 ∧
    (∀ st msg, REffect.updateReview st msg ∈ (processReview true reviewID expectedSHA env).2 →
      st = "processing" ∨ st = "cancelled") := by
  have htr : processReview true reviewID expectedSHA env =
      (none,
        [REffect.updateReview "processing" none, REffect.reaction "eyes", REffect.fetchPR,
         REffect.updateReview "cancelled"
           (some ("stale commit: expected " ++ s ++ ", got " ++ pr.headSHA))]) := by
    unfold processReview
    rw [hpr]
    dsimp only
    rw [hexp]
    dsimp only
    rw [if_pos ⟨hs, hne⟩, if_pos ⟨rfl, hid⟩, if_pos ⟨rfl, hid⟩]
    simp
  rw [htr]
  refine ⟨rfl, rfl, by simp, by simp, by simp, ?_⟩
  intro st msg hmem
  simp only [List.mem_cons, List.mem_singleton] at hmem
  rcases hmem with h | h | h | h | h
  · exact Or.inl (REffect.updateReview.inj h).1
  · cases h
  · cases h
  · exact Or.inr (REffect.updateReview.inj h).1
  · cases h

/-- C2 exercised concretely: review 1 expected commit `"abc"` but the PR
head moved to `"def"`; stale cancellation with success. -/
theorem processReview_stale_cancels_witness :
    (processReview true 1 (some "abc")
        { pr := Except.ok { headSHA := "def", title := "t", body := "b" },
          diff := Except.ok "d", filesCount := Except.ok 1, ctxPresent := true,
          rlPresent := true, rlWait := none, llm := Except.ok "r",
          inlineReviewOk := true, commentOk := true }).1 = none ∧
    (processReview true 1 (some "abc")
        { pr := Except.ok { headSHA := "def", title := "t", body := "b" },
          diff := Except.ok "d", filesCount := Except.ok 1, ctxPresent := true,
          rlPresent := true, rlWait := none, llm := Except.ok "r",
          inlineReviewOk := true, commentOk := true }).2 =
      [REffect.updateReview "processing" none, REffect.reaction "eyes", REffect.fetchPR,
       REffect.updateReview "cancelled"
         (some ("stale commit: expected " ++ "abc" ++ ", got " ++ "def"))] := by
  have h := processReview_stale_cancels 1 "abc"
    { headSHA := "def", title := "t", body := "b" }
    { pr := Except.ok { headSHA := "def", title := "t", body := "b" },
      diff := Except.ok "d", filesCount := Except.ok 1, ctxPresent := true,
      rlPresent := true, rlWait := none, llm := Except.ok "r",
      inlineReviewOk := true, commentOk := true }
    (some "abc") (by decide) rfl (by decide) rfl (by decide)
  exact ⟨h.1, h.2.1⟩

end Revo
